import Mathlib

/-!
Verification of the per-segment read/write engine of an inverted-index
search library (tantivy, early version).  The repository's files under
verification are `src/core/reader.rs` (SegmentReader / SegmentPostings)
and `src/indexer/segment_writer.rs` (SegmentWriter).  Collaborator
modules that the repository does not ship (the integer decoder, the FST
map, the block arena, the schema types, the intersection iterator, the
fast-field writers) are modelled from the specification; every such
definition carries a doc comment starting `Modelled from the spec:`.

Machine integers (`u32`, `u64`, `usize`) are modelled as `Nat`; none of
the verified paths can overflow them on the inputs considered, and no
arithmetic in the embedded code wraps.  A Rust `panic!` (here only from
`unwrap()` on a failed read, and from the out-of-bounds indexing noted
where it occurs) is modelled by `Option`/no-op as documented at each
definition, the value `none` standing for the panic.
-/

namespace Tantivy

/-- `DocId` is `u32` in `core::schema`; modelled as `Nat`. -/
abbrev DocId := Nat

/-- Embeds `SegmentPostings` of `src/core/reader.rs`: a decoded posting
list `doc_ids` and a cursor `doc_id` (an index into `doc_ids`, named
after the Rust field). -/
structure SegmentPostings where
  doc_id : Nat
  doc_ids : List Nat
deriving DecidableEq, Repr

/-- Embeds `SegmentPostings::empty`. -/
def SegmentPostings.empty : SegmentPostings :=
  { doc_id := 0, doc_ids := [] }

/-- Embeds `impl Iterator for SegmentPostings::next`: yields the element
at the cursor and advances, or `none` when the cursor has reached the
end.  Rust mutates `self`; the model returns the new state. -/
def SegmentPostings.next (s : SegmentPostings) : Option DocId × SegmentPostings :=
  if h : s.doc_id < s.doc_ids.length then
    (some (s.doc_ids.get ⟨s.doc_id, h⟩), { s with doc_id := s.doc_id + 1 })
  else
    (none, s)

/-- The part of the posting list the iterator has not yielded yet. -/
def SegmentPostings.remaining (s : SegmentPostings) : List Nat :=
  s.doc_ids.drop s.doc_id

/-- Embeds `Postings::skip_next` for `SegmentPostings`
(`src/core/reader.rs` lines 64-78): loop on `next()`, returning the
first yielded value `≥ target`, or `none` when the iterator exhausts. -/
def SegmentPostings.skip_next (s : SegmentPostings) (target : DocId) :
    Option DocId × SegmentPostings :=
  match h : s.next with
  | (some val, s') =>
    if target ≤ val then (some val, s')
    else s'.skip_next target
  | (none, s') => (none, s')
termination_by s.doc_ids.length - s.doc_id
decreasing_by
  simp only [SegmentPostings.next] at h
  split at h
  · next hlt =>
    rw [Prod.mk.injEq] at h
    obtain ⟨-, rfl⟩ := h
    dsimp only
    omega
  · exact absurd h (by simp)

/-- The full sequence the iterator yields from state `s` (repeated
`next()` until `none`). -/
def SegmentPostings.toSeq (s : SegmentPostings) : List DocId :=
  match h : s.next with
  | (some val, s') => val :: s'.toSeq
  | (none, _) => []
termination_by s.doc_ids.length - s.doc_id
decreasing_by
  simp only [SegmentPostings.next] at h
  split at h
  · next hlt =>
    rw [Prod.mk.injEq] at h
    obtain ⟨-, rfl⟩ := h
    dsimp only
    omega
  · exact absurd h (by simp)

/-- The observable result sequence of repeated `skip_next` calls, one
per target, the `None` results dropped (spec §8, property 5). -/
def SegmentPostings.skipSeq : SegmentPostings → List Nat → List Nat
  | _, [] => []
  | s, t :: ts =>
    match s.skip_next t with
    | (some d, s') => d :: s'.skipSeq ts
    | (none, s') => s'.skipSeq ts

/-! Byte-level layout of a serialized posting list (`src/core/reader.rs`
`SegmentPostings::from_data`).  A byte slice is a `List Nat` of values
below 256. -/

/-- Embeds `cursor.read_u32::<BigEndian>()`: four bytes, big-endian, or
a read failure when fewer than four bytes remain. -/
def read_u32_be : List Nat → Option (Nat × List Nat)
  | b0 :: b1 :: b2 :: b3 :: rest =>
    some (((b0 * 256 + b1) * 256 + b2) * 256 + b3, rest)
  | _ => none

/-- Modelled from the spec: `u32::deserialize` (`core::serialize`
`BinarySerializable`, not under src/) reads the `doc_freq: uint32
big-endian` header of §4.4, exactly as `read_u32::<BigEndian>` does. -/
def u32_deserialize : List Nat → Option (Nat × List Nat) :=
  read_u32_be

/-- Embeds the `for _ in 0..data_size` loop of `from_data`: reads `n`
big-endian `u32` data words. -/
def readWords : Nat → List Nat → Option (List Nat × List Nat)
  | 0, rest => some ([], rest)
  | n + 1, rest =>
    match read_u32_be rest with
    | some (w, rest') =>
      match readWords n rest' with
      | some (ws, rest'') => some (w :: ws, rest'')
      | none => none
    | none => none

/-- Modelled from the spec: `core::simdcompression::Decoder` is not
under src/.  The spec pins only its contract — given the data words and
an output buffer of the expected count, the in-place decode fills the
buffer, so the result has exactly the buffer's length — and expressly
leaves the bit-packing scheme open (§4.4, §9).  We model the in-place
decode as overwriting the buffer's leading entries with the data words,
the buffer keeping its length. -/
def Decoder.decode (data : List Nat) (buffer : List Nat) : List Nat :=
  data.take buffer.length ++ buffer.drop data.length

/-- Embeds `SegmentPostings::from_data` (`src/core/reader.rs` lines
44-60): reads `doc_freq` (big-endian `u32`), the data word count
(big-endian `u32`), then that many data words; allocates the output
buffer `(0..doc_freq).collect()` and decodes the words into it.  Every
read in the Rust code is `unwrap()`ed: a failed read panics, modelled
as `none`. -/
def SegmentPostings.from_data (data : List Nat) : Option SegmentPostings :=
  match u32_deserialize data with
  | none => none
  | some (doc_freq, rest) =>
    match read_u32_be rest with
    | none => none
    | some (data_size, rest2) =>
      match readWords data_size rest2 with
      | none => none
      | some (words, _) =>
        some { doc_ids := Decoder.decode words (List.range doc_freq), doc_id := 0 }

/-- Big-endian 4-byte encoding of a `u32` value, for stating what a
well-formed posting-list slice contains. -/
def u32be (x : Nat) : List Nat :=
  [x / 16777216 % 256, x / 65536 % 256, x / 256 % 256, x % 256]

/-- The data words of a posting list record, each as 4 big-endian
bytes, concatenated. -/
def wordsToBytes : List Nat → List Nat
  | [] => []
  | w :: ws => u32be w ++ wordsToBytes ws

/-- The data word count a posting-list slice declares in its second
header (bytes 4..8, big-endian); 0 when the slice is shorter than 8
bytes. -/
def declaredWordCount (bytes : List Nat) : Nat :=
  match read_u32_be (bytes.drop 4) with
  | some (w, _) => w
  | none => 0

/-! The term dictionary side of the reader (`SegmentReader`). -/

/-- Modelled from the spec: a `Term` (`core::schema`, not under src/) is
the key `[field_id | payload]`, payload UTF-8 text for Str fields or a
big-endian `u32` for U32 fields (§6).  We keep the tagged pair rather
than the byte string; `ofText` embeds `Term::from_field_text` and
`ofU32` embeds `Term::from_field_u32`. -/
inductive Term where
  | ofText (field : Nat) (text : String)
  | ofU32 (field : Nat) (value : Nat)
deriving DecidableEq, Repr

/-- Embeds `TermInfo` (`core::codec`): the dictionary payload
`doc_freq: u32`, `postings_offset: u64`. -/
structure TermInfo where
  doc_freq : Nat
  postings_offset : Nat
deriving DecidableEq, Repr

/-- Embeds `SegmentReader` (`src/core/reader.rs`): the FST term
dictionary is modelled as an association list (Modelled from the spec:
`FstMap`, not under src/, is an ordered map from term bytes to
`TermInfo`; lookup order over an association list is observationally
the same map), `postings_data` is the mmapped POSTINGS byte slice, the
store reader an opaque list of store records, the segment its id. -/
structure SegmentReader where
  segment : Nat
  term_offsets : List (Term × TermInfo)
  postings_data : List Nat
  store_reader : List (List Nat)
deriving DecidableEq, Repr

/-- Embeds `SegmentReader::get_term`: dictionary lookup, `none` for a
missing term. -/
def SegmentReader.get_term (r : SegmentReader) (term : Term) : Option TermInfo :=
  (r.term_offsets.find? (fun p => p.1 == term)).map Prod.snd

/-- Embeds `SegmentReader::read_postings`: decodes the posting list at
byte `offset` of the POSTINGS data (`&postings_data[offset..]`);
`none` models the panic inside `from_data` on truncated data. -/
def SegmentReader.read_postings (r : SegmentReader) (offset : Nat) :
    Option SegmentPostings :=
  SegmentPostings.from_data (r.postings_data.drop offset)

/-- Embeds `IntersectionPostings` (`core::postings`): `from_postings`
keeps the input posting lists. -/
structure IntersectionPostings where
  postings : List SegmentPostings
deriving DecidableEq, Repr

/-- Embeds `IntersectionPostings::from_postings`. -/
def IntersectionPostings.from_postings (postings : List SegmentPostings) :
    IntersectionPostings :=
  { postings := postings }

/-- Modelled from the spec: the doc-id sequence `IntersectionPostings`
produces (its code is not under src/): "the strictly increasing
sequence of doc ids present in all inputs" (§4.8.2) — the doc ids of
the first input that every other input also contains. -/
def IntersectionPostings.docs (ip : IntersectionPostings) : List Nat :=
  match ip.postings with
  | [] => []
  | p :: rest =>
    p.remaining.filter (fun d => rest.all (fun q => q.remaining.contains d))

/-- The term-resolution loop of `SegmentReader::search`
(`src/core/reader.rs` lines 129-146), `acc` the `segment_postings`
vector: a resolved term pushes its decoded posting list; a missing term
clears the vector, pushes `SegmentPostings::empty()` and breaks.
`none` models the panic inside `read_postings` on corrupt data. -/
def searchLoop (r : SegmentReader) : List Term → List SegmentPostings →
    Option (List SegmentPostings)
  | [], acc => some acc
  | term :: terms, acc =>
    match r.get_term term with
    | some term_info =>
      match r.read_postings term_info.postings_offset with
      | some segment_posting => searchLoop r terms (acc ++ [segment_posting])
      | none => none
    | none => some [SegmentPostings.empty]

/-- Embeds `SegmentReader::search`: resolves every term and hands the
collected posting lists to `IntersectionPostings::from_postings`. -/
def SegmentReader.search (r : SegmentReader) (terms : List Term) :
    Option IntersectionPostings :=
  (searchLoop r terms []).map IntersectionPostings.from_postings

/-! The writer side (`src/indexer/segment_writer.rs`) and the schema
types it routes on. -/

/-- Modelled from the spec: `TextIndexingOptions` (`core::schema`, not
under src/).  The spec's routing (§4.3) distinguishes tokenized with
positions, tokenized with frequency, and every other Str option; the
other options are tokenized without frequency, untokenized, and
unindexed. -/
inductive TextIndexingOptions where
  | Unindexed
  | Untokenized
  | TokenizedNoFreq
  | TokenizedWithFreq
  | TokenizedWithFreqAndPosition
deriving DecidableEq, Repr

/-- Modelled from the spec: an option is tokenized when the text is run
through the tokenizer (§4.3, `index_text` versus the one-term-per-value
path of §4.7.1). -/
def TextIndexingOptions.is_tokenized : TextIndexingOptions → Bool
  | .TokenizedNoFreq => true
  | .TokenizedWithFreq => true
  | .TokenizedWithFreqAndPosition => true
  | _ => false

/-- Modelled from the spec: the Str field options of the schema entry;
`get_indexing_options` returns the indexing choice, `stored` marks the
field stored (§3, §4.7.1). -/
structure TextOptions where
  indexing : TextIndexingOptions
  stored : Bool
deriving DecidableEq, Repr

def TextOptions.get_indexing_options (o : TextOptions) : TextIndexingOptions :=
  o.indexing

/-- Modelled from the spec: the U32 field options; `is_indexed` marks
the field indexed, `stored` stored (§4.7.1). -/
structure U32Options where
  indexed : Bool
  stored : Bool
deriving DecidableEq, Repr

def U32Options.is_indexed (o : U32Options) : Bool :=
  o.indexed

/-- Modelled from the spec: `FieldType` (`core::schema`): a field is
text (`Str`) or numeric (`U32`). -/
inductive FieldType where
  | Str (options : TextOptions)
  | U32 (options : U32Options)
deriving DecidableEq, Repr

/-- Modelled from the spec: a schema `FieldEntry` is the field's name
and type; `Field(i)` indexes the entry vector (§3). -/
structure FieldEntry where
  name : String
  field_type : FieldType
deriving DecidableEq, Repr

/-- Modelled from the spec: a field entry is indexed when its postings
are built — every Str option but `Unindexed`, and a U32 field with
`is_indexed` (used by `create_fieldnorms_writer`). -/
def FieldEntry.is_indexed (e : FieldEntry) : Bool :=
  match e.field_type with
  | .Str o => o.get_indexing_options != .Unindexed
  | .U32 o => o.is_indexed

/-- Modelled from the spec: a field entry is stored when its values go
to the document store (§4.7.1). -/
def FieldEntry.is_stored (e : FieldEntry) : Bool :=
  match e.field_type with
  | .Str o => o.stored
  | .U32 o => o.stored

/-- A schema is its field entry vector; `Field(i)` is the index `i`. -/
abbrev Schema := List FieldEntry

abbrev Field := Nat

/-- The three postings-recorder variants
(`postings::{NothingRecorder, TermFrequencyRecorder,
TFAndPositionRecorder}`); the writer for a field is
`SpecializedPostingsWriter::<R>` for its recorder `R`, so the recorder
variant identifies the constructed writer. -/
inductive RecorderKind where
  | NothingRecorder
  | TermFrequencyRecorder
  | TFAndPositionRecorder
deriving DecidableEq, Repr

/-- Embeds `posting_from_field_entry` (`src/indexer/segment_writer.rs`
lines 41-60): the recorder the constructed postings writer uses,
routed on the schema entry's type. -/
def posting_from_field_entry (field_entry : FieldEntry) : RecorderKind :=
  match field_entry.field_type with
  | .Str text_options =>
    match text_options.get_indexing_options with
    | .TokenizedWithFreq => .TermFrequencyRecorder
    | .TokenizedWithFreqAndPosition => .TFAndPositionRecorder
    | _ => .NothingRecorder
  | .U32 _ => .NothingRecorder

/-- Modelled from the spec: a field value (`core::schema`) is text or a
`u32`.  A text value is kept as the raw string. -/
inductive Value where
  | text (s : String)
  | u32 (v : Nat)
deriving DecidableEq, Repr

/-- The text payload of a value (`Value::text()`; panics in Rust on a
u32 value, a case the embedded writer never reaches on schema-typed
documents — modelled as the empty string). -/
def Value.textPayload : Value → String
  | .text s => s
  | .u32 _ => ""

/-- The u32 payload of a value (`Value::u32_value()`; panics in Rust on
a text value — modelled as 0, same remark as `Value.textPayload`). -/
def Value.u32_value : Value → Nat
  | .u32 v => v
  | .text _ => 0

/-- Modelled from the spec: a `FieldValue` pairs a field with a value. -/
structure FieldValue where
  field : Field
  value : Value
deriving DecidableEq, Repr

/-- Modelled from the spec: a `Document` is its field values (§4.7.1). -/
structure Document where
  fields : List FieldValue
deriving DecidableEq, Repr

/-- Insertion of a key into a sorted key list, for
`get_sorted_fields`. -/
def insertSorted (x : Nat) : List Nat → List Nat
  | [] => [x]
  | y :: ys => if x ≤ y then x :: y :: ys else y :: insertSorted x ys

/-- Sorts a key list ascending. -/
def sortNat (l : List Nat) : List Nat :=
  l.foldr insertSorted []

/-- Modelled from the spec: `Document::get_sorted_fields` (not under
src/) groups the document's values by field in ascending field-id
order (§4.7.1 processes "each distinct field in the document, in
field-id order"). -/
def Document.get_sorted_fields (doc : Document) : List (Field × List FieldValue) :=
  (sortNat (doc.fields.map FieldValue.field).dedup).map
    (fun f => (f, doc.fields.filter (fun v => v.field == f)))

/-- Modelled from the spec: the tokenizer (not under src/) is "a simple
UTF-8 whitespace/punctuation splitter" (§4.3); we model it as the
whitespace splitter over the string. -/
def tokenize (s : String) : List String :=
  (s.split (fun c => c = ' ')).filter (fun t => t ≠ "")

/-- A subscribe event of a per-field postings writer
(`PostingsWriter::suscribe`, sic): the field whose writer receives it,
the doc id, the position within the doc and the term. -/
structure SubEvent where
  field : Field
  doc_id : DocId
  position : Nat
  term : Term
deriving DecidableEq, Repr

/-- Modelled from the spec: `PostingsWriter::index_text` (not under
src/) tokenizes each textual value, assigns positions `0..n`
continuing across values of the same field in the same doc, and emits
one subscribe per token (§4.3).  Returns the events; the token count
the Rust function returns is their number. -/
def index_text (field : Field) (doc_id : DocId) (field_values : List FieldValue) :
    List SubEvent :=
  ((field_values.map (fun v => v.value.textPayload)).flatMap tokenize).enum.map
    (fun p => { field := field, doc_id := doc_id, position := p.1,
                term := Term.ofText field p.2 })

/-- Modelled from the spec: `BlockStore` (`postings`, not under src/)
is the shared block arena; the one observation the writer makes of it
is `num_free_blocks` (§4.1). -/
structure BlockStore where
  num_free_blocks : Nat
deriving DecidableEq, Repr

/-- Embeds the state of `SegmentWriter` (`src/indexer/segment_writer.rs`
lines 22-29).  The per-field postings writers are modelled by the
recorder variant each was constructed with (fixed at construction)
plus one log of the subscribe events they received, tagged by field;
the fieldnorms and fast-field writers and the store writer inside the
serializer are modelled by what has been appended to them.  The model
does not track the blocks the postings writers consume from
`block_store` (that bookkeeping lives in the modules not under
src/). -/
structure SegmentWriterS where
  block_store : BlockStore
  max_doc : DocId
  per_field_postings_writers : List RecorderKind
  postings_events : List SubEvent
  fieldnorms : List (Field × List Nat)
  fast_fields : List Document
  store : List (List FieldValue)
deriving DecidableEq, Repr

/-- Embeds `create_fieldnorms_writer`: one (initially empty) u32
fast-field writer per indexed field, in field-id order. -/
def create_fieldnorms_writer (schema : Schema) : List (Field × List Nat) :=
  (schema.enum.filter (fun p => p.2.is_indexed)).map (fun p => (p.1, []))

/-- Embeds `SegmentWriter::for_segment` (lines 66-82): fresh state,
`max_doc = 0`, one postings writer per schema entry routed by
`posting_from_field_entry`.  (The serializer's file handles are not
modelled; the store log starts empty.) -/
def SegmentWriterS.for_segment (block_store : BlockStore) (schema : Schema) :
    SegmentWriterS :=
  { block_store := block_store
    max_doc := 0
    per_field_postings_writers := schema.map posting_from_field_entry
    postings_events := []
    fieldnorms := create_fieldnorms_writer schema
    fast_fields := []
    store := [] }

/-- Embeds `self.fieldnorms_writer.get_field_writer(field).map(|w|
w.add_val(v))`: appends to the matching field's list, a no-op when the
field has no fieldnorms writer. -/
def fieldnorms_add_val (w : List (Field × List Nat)) (field : Field) (v : Nat) :
    List (Field × List Nat) :=
  w.map (fun p => if p.1 == field then (p.1, p.2 ++ [v]) else p)

/-- Modelled from the spec: `U32FastFieldsWriter::fill_val_up_to` (not
under src/) right-pads every field's list with zeroes so index
`doc_id` exists (§4.7.1: "the fieldnorms writer is right-padded with
zeroes to `doc_id`"). -/
def fill_val_up_to (w : List (Field × List Nat)) (doc_id : DocId) :
    List (Field × List Nat) :=
  w.map (fun p => (p.1, p.2 ++ List.replicate (doc_id + 1 - p.2.length) 0))

/-- Embeds the per-field loop body of `SegmentWriter::add_document`
(lines 110-142).  A field id outside the schema panics in Rust (vector
indexing); the model leaves the state unchanged there, and no theorem
depends on that case. -/
def processField (schema : Schema) (doc_id : DocId) (s : SegmentWriterS)
    (fv : Field × List FieldValue) : SegmentWriterS :=
  match schema.get? fv.1 with
  | none => s
  | some field_options =>
    match field_options.field_type with
    | .Str text_options =>
      if text_options.get_indexing_options.is_tokenized then
        let events := index_text fv.1 doc_id fv.2
        { s with postings_events := s.postings_events ++ events
                 fieldnorms := fieldnorms_add_val s.fieldnorms fv.1 events.length }
      else
        { s with
            postings_events := s.postings_events ++ fv.2.map (fun v =>
              { field := fv.1, doc_id := doc_id, position := 0,
                term := Term.ofText fv.1 v.value.textPayload })
            fieldnorms := fieldnorms_add_val s.fieldnorms fv.1 fv.2.length }
    | .U32 u32_options =>
      if u32_options.is_indexed then
        { s with postings_events := s.postings_events ++ fv.2.map (fun v =>
            { field := fv.1, doc_id := doc_id, position := 0,
              term := Term.ofU32 v.field v.value.u32_value }) }
      else s

/-- The mutations `add_document` performs before the store write (lines
110-146): the per-field loop, the fieldnorms padding, the fast-field
append. -/
def processDoc (schema : Schema) (doc_id : DocId) (s : SegmentWriterS)
    (doc : Document) : SegmentWriterS :=
  let s1 := doc.get_sorted_fields.foldl (processField schema doc_id) s
  let s2 := { s1 with fieldnorms := fill_val_up_to s1.fieldnorms doc_id }
  { s2 with fast_fields := s2.fast_fields ++ [doc] }

/-- Embeds `SegmentWriter::add_document` (lines 108-156).  `store_ok`
says whether the store write (`doc_writer.store`, an io operation)
succeeds; on failure `try!` returns the error before `max_doc` is
incremented.  Rust returns `Ok(())`; the model returns the internal
`doc_id` the call assigned, so theorems can speak about it. -/
def SegmentWriterS.add_document (s : SegmentWriterS) (schema : Schema)
    (store_ok : Bool) (doc : Document) : Except Unit DocId × SegmentWriterS :=
  let doc_id := s.max_doc
  let s1 := processDoc schema doc_id s doc
  let stored_fieldvalues := doc.fields.filter (fun v =>
    match schema.get? v.field with
    | some e => e.is_stored
    | none => false)
  if store_ok then
    (Except.ok doc_id,
     { s1 with store := s1.store ++ [stored_fieldvalues], max_doc := s1.max_doc + 1 })
  else
    (Except.error (), s1)

/-- Embeds `SegmentWriter::is_buffer_full` (lines 104-106). -/
def SegmentWriterS.is_buffer_full (s : SegmentWriterS) : Bool :=
  s.block_store.num_free_blocks < 100000

/-- Embeds `SegmentWriter::segment_info` (lines 159-163): the segment
info records `max_doc`. -/
def SegmentWriterS.segment_info (s : SegmentWriterS) : Nat :=
  s.max_doc

/-- Runs a sequence of `add_document` calls that all succeed on the
store side, collecting each call's result. -/
def addAll (schema : Schema) (s : SegmentWriterS) :
    List Document → List (Except Unit DocId) × SegmentWriterS
  | [] => ([], s)
  | doc :: docs =>
    let r := s.add_document schema true doc
    let rest := addAll schema r.2 docs
    (r.1 :: rest.1, rest.2)

/-! Theorems.  First the iterator lemmas for `SegmentPostings`. -/

theorem SegmentPostings.next_some {s s' : SegmentPostings} {v : DocId}
    (h : s.next = (some v, s')) :
    s.doc_id < s.doc_ids.length ∧ s'.doc_id = s.doc_id + 1 ∧
      s'.doc_ids = s.doc_ids ∧ s.remaining = v :: s'.remaining := by
  by_cases hlt : s.doc_id < s.doc_ids.length
  · simp only [SegmentPostings.next, dif_pos hlt, Prod.mk.injEq] at h
    obtain ⟨hv, hs⟩ := h
    subst hs
    refine ⟨hlt, rfl, rfl, ?_⟩
    simp only [SegmentPostings.remaining]
    obtain rfl : s.doc_ids[s.doc_id] = v := by simpa using hv
    exact (List.getElem_cons_drop s.doc_ids s.doc_id hlt).symm
  · simp [SegmentPostings.next, dif_neg hlt] at h

theorem SegmentPostings.next_none {s s' : SegmentPostings}
    (h : s.next = (none, s')) :
    s' = s ∧ s.doc_ids.length ≤ s.doc_id ∧ s.remaining = [] := by
  by_cases hlt : s.doc_id < s.doc_ids.length
  · simp [SegmentPostings.next, dif_pos hlt] at h
  · simp only [SegmentPostings.next, dif_neg hlt, Prod.mk.injEq] at h
    refine ⟨h.2.symm, Nat.le_of_not_lt hlt, ?_⟩
    simp [SegmentPostings.remaining, List.drop_eq_nil_of_le (Nat.le_of_not_lt hlt)]

theorem SegmentPostings.toSeq_eq_remaining (s : SegmentPostings) :
    s.toSeq = s.remaining := by
  have key : ∀ (n : Nat) (t : SegmentPostings), t.doc_ids.length - t.doc_id ≤ n →
      t.toSeq = t.remaining := by
    intro n
    induction n with
    | zero =>
      intro t ht
      rw [SegmentPostings.toSeq.eq_def]
      split
      · next val t' h =>
        obtain ⟨h1, -, -, -⟩ := SegmentPostings.next_some h
        omega
      · next t' h =>
        exact (SegmentPostings.next_none h).2.2.symm
    | succ k ih =>
      intro t ht
      rw [SegmentPostings.toSeq.eq_def]
      split
      · next val t' h =>
        obtain ⟨h1, h2, h3, h4⟩ := SegmentPostings.next_some h
        rw [ih t' (by rw [h2, h3]; omega), h4]
      · next t' h =>
        exact (SegmentPostings.next_none h).2.2.symm
  exact key (s.doc_ids.length - s.doc_id) s le_rfl

/-- The full case analysis of one `skip_next` call: either it returns
`some d` with `d ≥ target`, `d` a member of the remaining list, and the
new state positioned just past `d`; or it returns `none` with the
iterator exhausted and every remaining doc id below the target. -/
theorem SegmentPostings.skip_next_cases (s : SegmentPostings) (t : DocId) :
    (∃ d s', s.skip_next t = (some d, s') ∧ s'.doc_ids = s.doc_ids ∧ t ≤ d ∧
      ∃ l1, s.remaining = l1 ++ d :: s'.remaining) ∨
    (∃ s', s.skip_next t = (none, s') ∧ s'.doc_ids = s.doc_ids ∧
      s'.remaining = [] ∧ ∀ x ∈ s.remaining, x < t) := by
  have key : ∀ (n : Nat) (u : SegmentPostings), u.doc_ids.length - u.doc_id ≤ n →
      (∃ d s', u.skip_next t = (some d, s') ∧ s'.doc_ids = u.doc_ids ∧ t ≤ d ∧
        ∃ l1, u.remaining = l1 ++ d :: s'.remaining) ∨
      (∃ s', u.skip_next t = (none, s') ∧ s'.doc_ids = u.doc_ids ∧
        s'.remaining = [] ∧ ∀ x ∈ u.remaining, x < t) := by
    intro n
    induction n with
    | zero =>
      intro u hu
      rw [SegmentPostings.skip_next.eq_def]
      split
      · next val u' h =>
        obtain ⟨h1, -, -, -⟩ := SegmentPostings.next_some h
        omega
      · next u' h =>
        obtain ⟨h1, -, hrem⟩ := SegmentPostings.next_none h
        refine Or.inr ⟨u', rfl, by rw [h1], by rw [h1]; exact hrem, ?_⟩
        intro x hx
        rw [hrem] at hx
        simp at hx
    | succ k ih =>
      intro u hu
      rw [SegmentPostings.skip_next.eq_def]
      split
      · next val u' h =>
        obtain ⟨h1, h2, h3, h4⟩ := SegmentPostings.next_some h
        by_cases hle : t ≤ val
        · simp only [if_pos hle]
          exact Or.inl ⟨val, u', rfl, h3, hle, [], by simpa using h4⟩
        · simp only [if_neg hle]
          have hk : u'.doc_ids.length - u'.doc_id ≤ k := by rw [h2, h3]; omega
          rcases ih u' hk with ⟨d, s', hEq, hIds, hTd, l1, hDecomp⟩ |
            ⟨s', hEq, hIds, hRem, hAll⟩
          · exact Or.inl ⟨d, s', hEq, by rw [hIds, h3], hTd, val :: l1,
              by rw [h4, hDecomp]; simp⟩
          · refine Or.inr ⟨s', hEq, by rw [hIds, h3], hRem, ?_⟩
            intro x hx
            rw [h4] at hx
            rcases List.mem_cons.mp hx with hx0 | hx
            · rw [hx0]; exact Nat.lt_of_not_le hle
            · exact hAll x hx
      · next u' h =>
        obtain ⟨h1, -, hrem⟩ := SegmentPostings.next_none h
        refine Or.inr ⟨u', rfl, by rw [h1], by rw [h1]; exact hrem, ?_⟩
        intro x hx
        rw [hrem] at hx
        simp at hx
  exact key (s.doc_ids.length - s.doc_id) s le_rfl

/-- C5: For every SegmentPostings iterator and every target doc id,
skip_next(target) returns either Some(d) with d ≥ target and d an
element of the remaining posting list, or None when the iterator
exhausts without producing such a doc id (every remaining doc id is
below the target). -/
theorem skip_next_spec (s : SegmentPostings) (target : DocId) :
    (∀ d, (s.skip_next target).1 = some d → target ≤ d ∧ d ∈ s.remaining) ∧
    ((s.skip_next target).1 = none → ∀ d ∈ s.remaining, d < target) := by
  rcases SegmentPostings.skip_next_cases s target with
    ⟨d, s', hEq, -, hTd, l1, hDecomp⟩ | ⟨s', hEq, -, -, hAll⟩
  · constructor
    · intro d' hd'
      rw [hEq] at hd'
      simp only [Option.some.injEq] at hd'
      subst hd'
      exact ⟨hTd, by rw [hDecomp]; simp⟩
    · intro hnone
      rw [hEq] at hnone
      simp at hnone
  · constructor
    · intro d' hd'
      rw [hEq] at hd'
      simp at hd'
    · intro _
      exact hAll

/-- Every value `skipSeq` produces is a member of the starting state's
remaining posting list. -/
theorem skipSeq_subset (ts : List Nat) :
    ∀ (s : SegmentPostings) (x : Nat), x ∈ s.skipSeq ts → x ∈ s.remaining := by
  induction ts with
  | nil =>
    intro s x hx
    simp [SegmentPostings.skipSeq] at hx
  | cons t ts ih =>
    intro s x hx
    rcases SegmentPostings.skip_next_cases s t with
      ⟨d, s', hEq, -, -, l1, hDecomp⟩ | ⟨s', hEq, -, hRem, -⟩
    · simp only [SegmentPostings.skipSeq, hEq] at hx
      rcases List.mem_cons.mp hx with rfl | hx
      · rw [hDecomp]; simp
      · have hmem := ih s' x hx
        rw [hDecomp]
        simp only [List.mem_append, List.mem_cons]
        exact Or.inr (Or.inr hmem)
    · simp only [SegmentPostings.skipSeq, hEq] at hx
      have hmem := ih s' x hx
      rw [hRem] at hmem
      simp at hmem

/-- With a strictly increasing remaining list, the results of repeated
`skip_next` calls are strictly increasing (each result is found
strictly beyond the previous one). -/
theorem skipSeq_sorted_of_remaining (ts : List Nat) :
    ∀ s : SegmentPostings, List.Sorted (· < ·) s.remaining →
      List.Sorted (· < ·) (s.skipSeq ts) := by
  induction ts with
  | nil =>
    intro s _
    simp [SegmentPostings.skipSeq]
  | cons t ts ih =>
    intro s hs
    rcases SegmentPostings.skip_next_cases s t with
      ⟨d, s', hEq, -, -, l1, hDecomp⟩ | ⟨s', hEq, -, hRem, -⟩
    · simp only [SegmentPostings.skipSeq, hEq]
      have hsub : List.Sorted (· < ·) (d :: s'.remaining) :=
        List.Pairwise.sublist (hDecomp ▸ List.sublist_append_right l1 _) hs
      rw [List.sorted_cons] at hsub
      rw [List.sorted_cons]
      refine ⟨?_, ih s' hsub.2⟩
      intro b hb
      exact hsub.1 b (skipSeq_subset ts s' b hb)
    · simp only [SegmentPostings.skipSeq, hEq]
      have hnil : s'.skipSeq ts = [] := by
        rw [List.eq_nil_iff_forall_not_mem]
        intro x hx
        have hmem := skipSeq_subset ts s' x hx
        rw [hRem] at hmem
        simp at hmem
      rw [hnil]
      simp

/-- C6: For every SegmentPostings whose underlying doc-id list is
strictly increasing, and every ascending sequence of targets, the
sequence of values returned by successive skip_next calls (ignoring
END) is non-decreasing. -/
theorem skip_next_monotone (s : SegmentPostings) (ts : List Nat)
    (hdocs : List.Sorted (· < ·) s.doc_ids) (hts : List.Sorted (· ≤ ·) ts) :
    List.Sorted (· ≤ ·) (s.skipSeq ts) := by
  have hrem : List.Sorted (· < ·) s.remaining :=
    List.Pairwise.sublist (List.drop_sublist _ _) hdocs
  exact (skipSeq_sorted_of_remaining ts s hrem).imp (fun h => le_of_lt h)

/-- Witness for C6 at a concrete posting list and target sequence. -/
theorem skip_next_monotone_witness :
    List.Sorted (· ≤ ·) ((SegmentPostings.mk 0 [1, 3, 7]).skipSeq [2, 2, 5]) :=
  skip_next_monotone (SegmentPostings.mk 0 [1, 3, 7]) [2, 2, 5]
    (by decide) (by decide)

/-- C10: SegmentPostings exhaustion is permanent: once next() returns
None (leaving the state unchanged), every subsequent next() returns
None and every subsequent skip_next(target) returns None for any
target. -/
theorem exhaustion_permanent (s s' : SegmentPostings)
    (h : s.next = (none, s')) :
    s' = s ∧ s'.next = (none, s') ∧
      ∀ target, s'.skip_next target = (none, s') := by
  obtain ⟨rfl, -, -⟩ := SegmentPostings.next_none h
  refine ⟨rfl, h, ?_⟩
  intro target
  rw [SegmentPostings.skip_next.eq_def]
  split
  · next val t' hn =>
    rw [h] at hn
    simp at hn
  · next t' hn =>
    rw [h, Prod.mk.injEq] at hn
    rw [← hn.2]

/-- Witness for C10 at the empty posting list. -/
theorem exhaustion_permanent_witness :
    SegmentPostings.empty = SegmentPostings.empty ∧
    SegmentPostings.empty.next = (none, SegmentPostings.empty) ∧
    ∀ target, SegmentPostings.empty.skip_next target =
      (none, SegmentPostings.empty) :=
  exhaustion_permanent SegmentPostings.empty SegmentPostings.empty rfl

/-! Byte-layout lemmas for `from_data`. -/

theorem read_u32_be_of_u32be (x : Nat) (hx : x < 4294967296) (rest : List Nat) :
    read_u32_be (u32be x ++ rest) = some (x, rest) := by
  simp only [u32be, List.cons_append, List.nil_append, read_u32_be,
    Option.some.injEq, Prod.mk.injEq]
  exact ⟨by omega, trivial⟩

theorem readWords_of_wordsToBytes (ws : List Nat)
    (hws : ∀ x ∈ ws, x < 4294967296) (tail : List Nat) :
    readWords ws.length (wordsToBytes ws ++ tail) = some (ws, tail) := by
  induction ws with
  | nil => simp [wordsToBytes, readWords]
  | cons w ws ih =>
    have h1 : read_u32_be (u32be w ++ (wordsToBytes ws ++ tail)) =
        some (w, wordsToBytes ws ++ tail) :=
      read_u32_be_of_u32be w (hws w (by simp)) (wordsToBytes ws ++ tail)
    have h2 := ih (fun x hx => hws x (by simp [hx]))
    simp [readWords, wordsToBytes, h1, h2]

theorem readWords_isSome (n : Nat) : ∀ rest : List Nat,
    (readWords n rest).isSome = true ↔ 4 * n ≤ rest.length := by
  induction n with
  | zero =>
    intro rest
    simp [readWords]
  | succ k ih =>
    intro rest
    rcases rest with _ | ⟨a, _ | ⟨b, _ | ⟨c, _ | ⟨d, r⟩⟩⟩⟩
    · simp [readWords, read_u32_be]
    · simp [readWords, read_u32_be]
      omega
    · simp [readWords, read_u32_be]
      omega
    · simp [readWords, read_u32_be]
      omega
    · have hr := ih r
      cases hk : readWords k r with
      | some p =>
        rw [hk] at hr
        simp only [Option.isSome_some, true_iff] at hr
        simp only [readWords, read_u32_be, hk]
        simp only [Option.isSome_some, List.length_cons, true_iff]
        omega
      | none =>
        rw [hk] at hr
        simp only [Option.isSome_none, Bool.false_eq_true, false_iff, not_le] at hr
        simp only [readWords, read_u32_be, hk]
        simp only [Option.isSome_none, Bool.false_eq_true, false_iff, not_le,
          List.length_cons]
        omega

theorem decode_length (data buffer : List Nat) :
    (Decoder.decode data buffer).length = buffer.length := by
  simp only [Decoder.decode, List.length_append, List.length_take,
    List.length_drop]
  omega

/-- What `from_data` returns on a slice laid out per §4.4. -/
theorem from_data_eq (doc_freq : Nat) (ws tail : List Nat)
    (hdf : doc_freq < 4294967296) (hw : ws.length < 4294967296)
    (hws : ∀ x ∈ ws, x < 4294967296) :
    SegmentPostings.from_data
      (u32be doc_freq ++ u32be ws.length ++ wordsToBytes ws ++ tail) =
      some { doc_id := 0, doc_ids := Decoder.decode ws (List.range doc_freq) } := by
  have h1 : read_u32_be
      (u32be doc_freq ++ (u32be ws.length ++ (wordsToBytes ws ++ tail))) =
      some (doc_freq, u32be ws.length ++ (wordsToBytes ws ++ tail)) :=
    read_u32_be_of_u32be doc_freq hdf _
  have h2 : read_u32_be (u32be ws.length ++ (wordsToBytes ws ++ tail)) =
      some (ws.length, wordsToBytes ws ++ tail) :=
    read_u32_be_of_u32be ws.length hw _
  have h3 := readWords_of_wordsToBytes ws hws tail
  simp [SegmentPostings.from_data, u32_deserialize, List.append_assoc,
    h1, h2, h3]

/-- C1: For every well-formed posting-list byte slice,
SegmentPostings::from_data reads a big-endian uint32 doc_freq, then a
big-endian uint32 data word count W, then exactly W big-endian uint32
data words, and hands the W words to the decoder with expected count
doc_freq (buffer `(0..doc_freq).collect()`), yielding an iterator over
exactly doc_freq doc ids; when doc_freq = 0 and W = 0 the resulting
iterator is the empty sequence. -/
theorem from_data_wellformed (doc_freq w : Nat) (ws tail : List Nat)
    (hdf : doc_freq < 4294967296) (hw : w < 4294967296)
    (hlen : ws.length = w) (hws : ∀ x ∈ ws, x < 4294967296) :
    ∃ s, SegmentPostings.from_data
        (u32be doc_freq ++ u32be w ++ wordsToBytes ws ++ tail) = some s ∧
      s.doc_ids = Decoder.decode ws (List.range doc_freq) ∧
      s.toSeq.length = doc_freq ∧
      (doc_freq = 0 → w = 0 → s.toSeq = []) := by
  subst hlen
  refine ⟨_, from_data_eq doc_freq ws tail hdf hw hws, rfl, ?_, ?_⟩
  · rw [SegmentPostings.toSeq_eq_remaining]
    simp [SegmentPostings.remaining, decode_length]
  · intro h0 _
    rw [SegmentPostings.toSeq_eq_remaining]
    subst h0
    simp only [SegmentPostings.remaining, List.drop_zero]
    have := decode_length ws (List.range 0)
    simp only [List.range_zero, List.length_nil] at this
    exact List.eq_nil_of_length_eq_zero this

/-- Witness for C1: a concrete well-formed slice with doc_freq = 2 and
one data word. -/
theorem from_data_wellformed_witness :
    ∃ s, SegmentPostings.from_data
        (u32be 2 ++ u32be 1 ++ wordsToBytes [7] ++ []) = some s ∧
      s.doc_ids = Decoder.decode [7] (List.range 2) ∧
      s.toSeq.length = 2 ∧
      (2 = 0 → 1 = 0 → s.toSeq = []) :=
  from_data_wellformed 2 1 [7] [] (by norm_num) (by norm_num) rfl
    (by intro x hx; simp at hx; omega)

/-- C4 counterexample: on the truncated slice `[0, 0, 0, 1]` (a 4-byte
doc_freq header with the data-word-count header missing) the read path
panics — `from_data` hits `unwrap()` on a failed read, modelled as
`none` — instead of surfacing a CorruptedSegment error value; neither
`from_data` nor `read_postings` has an error channel at all. -/
theorem read_path_panic_concrete :
    SegmentPostings.from_data [0, 0, 0, 1] = none ∧
    SegmentReader.read_postings
      { segment := 0, term_offsets := [], postings_data := [0, 0, 0, 1],
        store_reader := [] } 0 = none :=
  ⟨rfl, rfl⟩

/-- C4 as amended: the read path has no error channel; `from_data`
panics (`unwrap()` on a failed read, modelled as `none`) exactly when
the slice is shorter than the 8 header bytes plus 4 bytes per declared
data word, and a doc_freq/decoded-length mismatch cannot arise because
the decode buffer is always allocated with exactly doc_freq entries. -/
theorem from_data_panics_iff_truncated (bytes : List Nat) :
    SegmentPostings.from_data bytes = none ↔
      bytes.length < 8 + 4 * declaredWordCount bytes := by
  rcases bytes with _ | ⟨b0, _ | ⟨b1, _ | ⟨b2, _ | ⟨b3, _ | ⟨b4, _ |
    ⟨b5, _ | ⟨b6, _ | ⟨b7, r⟩⟩⟩⟩⟩⟩⟩⟩
  · simp [SegmentPostings.from_data, u32_deserialize, read_u32_be,
      declaredWordCount]
  · simp [SegmentPostings.from_data, u32_deserialize, read_u32_be,
      declaredWordCount]
  · simp [SegmentPostings.from_data, u32_deserialize, read_u32_be,
      declaredWordCount]
  · simp [SegmentPostings.from_data, u32_deserialize, read_u32_be,
      declaredWordCount]
  · simp [SegmentPostings.from_data, u32_deserialize, read_u32_be,
      declaredWordCount]
  · simp [SegmentPostings.from_data, u32_deserialize, read_u32_be,
      declaredWordCount]
  · simp [SegmentPostings.from_data, u32_deserialize, read_u32_be,
      declaredWordCount]
  · simp [SegmentPostings.from_data, u32_deserialize, read_u32_be,
      declaredWordCount]
  · have hr := readWords_isSome (((b4 * 256 + b5) * 256 + b6) * 256 + b7) r
    simp only [SegmentPostings.from_data, u32_deserialize, read_u32_be,
      declaredWordCount, List.drop_succ_cons, List.drop_zero]
    cases hk : readWords (((b4 * 256 + b5) * 256 + b6) * 256 + b7) r with
    | some p =>
      rw [hk] at hr
      simp only [Option.isSome_some, true_iff] at hr
      simp only [hk, List.length_cons]
      constructor
      · intro habs
        exact absurd habs (by simp)
      · intro hlen
        exfalso
        omega
    | none =>
      rw [hk] at hr
      simp only [Option.isSome_none, Bool.false_eq_true, false_iff, not_le] at hr
      simp only [hk, List.length_cons]
      constructor
      · intro _
        omega
      · intro _
        trivial

/-! Search. -/

theorem get_term_some_mem {r : SegmentReader} {t : Term} {ti : TermInfo}
    (h : r.get_term t = some ti) : ∃ p ∈ r.term_offsets, p.2 = ti := by
  simp only [SegmentReader.get_term, Option.map_eq_some'] at h
  obtain ⟨p, hfind, hp⟩ := h
  exact ⟨p, List.mem_of_find?_eq_some hfind, hp⟩

/-- The `search` loop returns the vector `[SegmentPostings::empty()]`
whenever some query term is missing from the dictionary (and every
present term's posting data decodes, so no earlier read panics). -/
theorem searchLoop_missing (r : SegmentReader)
    (hwf : ∀ p ∈ r.term_offsets,
      (SegmentPostings.from_data
        (r.postings_data.drop p.2.postings_offset)).isSome = true) :
    ∀ (ts : List Term) (acc : List SegmentPostings),
      (∃ t ∈ ts, r.get_term t = none) →
      searchLoop r ts acc = some [SegmentPostings.empty] := by
  intro ts
  induction ts with
  | nil =>
    intro acc h
    simp at h
  | cons t ts ih =>
    intro acc h
    cases hget : r.get_term t with
    | none => simp [searchLoop, hget]
    | some ti =>
      obtain ⟨p, hmem, hp⟩ := get_term_some_mem hget
      have hsome := hwf p hmem
      rw [hp] at hsome
      obtain ⟨sp, hsp⟩ := Option.isSome_iff_exists.mp hsome
      have hterms : ∃ t' ∈ ts, r.get_term t' = none := by
        obtain ⟨t', ht', hnone⟩ := h
        rcases List.mem_cons.mp ht' with rfl | hmem'
        · rw [hget] at hnone
          simp at hnone
        · exact ⟨t', hmem', hnone⟩
      simp only [searchLoop, hget, SegmentReader.read_postings, hsp]
      exact ih _ hterms

/-- C3: For every query term vector in which at least one term is
absent from the term dictionary, SegmentReader::search returns an
empty iterator (the intersection yields no doc ids), and term absence
is not reported as an error (the result is `some`, no panic). -/
theorem search_missing_term_empty (r : SegmentReader) (terms : List Term)
    (hwf : ∀ p ∈ r.term_offsets,
      (SegmentPostings.from_data
        (r.postings_data.drop p.2.postings_offset)).isSome = true)
    (hmiss : ∃ t ∈ terms, r.get_term t = none) :
    ∃ ip, r.search terms = some ip ∧ ip.docs = [] := by
  refine ⟨IntersectionPostings.from_postings [SegmentPostings.empty], ?_, ?_⟩
  · simp [SegmentReader.search, searchLoop_missing r hwf terms [] hmiss]
  · simp [IntersectionPostings.docs, IntersectionPostings.from_postings,
      SegmentPostings.empty, SegmentPostings.remaining]

/-- Witness for C3: a reader with an empty dictionary and a one-term
query. -/
theorem search_missing_term_empty_witness :
    ∃ ip, SegmentReader.search
        { segment := 0, term_offsets := [], postings_data := [],
          store_reader := [] } [Term.ofText 0 "a"] = some ip ∧ ip.docs = [] :=
  search_missing_term_empty
    { segment := 0, term_offsets := [], postings_data := [], store_reader := [] }
    [Term.ofText 0 "a"] (by simp) ⟨Term.ofText 0 "a", by simp, rfl⟩

/-! The writer. -/

theorem processField_preserves (schema : Schema) (doc_id : DocId)
    (s : SegmentWriterS) (fv : Field × List FieldValue) :
    (processField schema doc_id s fv).max_doc = s.max_doc ∧
    (processField schema doc_id s fv).store = s.store ∧
    (processField schema doc_id s fv).block_store = s.block_store ∧
    (processField schema doc_id s fv).per_field_postings_writers =
      s.per_field_postings_writers := by
  simp only [processField]
  split
  · exact ⟨rfl, rfl, rfl, rfl⟩
  · split
    · split
      · exact ⟨rfl, rfl, rfl, rfl⟩
      · exact ⟨rfl, rfl, rfl, rfl⟩
    · split
      · exact ⟨rfl, rfl, rfl, rfl⟩
      · exact ⟨rfl, rfl, rfl, rfl⟩

theorem foldl_processField_preserves (schema : Schema) (doc_id : DocId) :
    ∀ (l : List (Field × List FieldValue)) (s : SegmentWriterS),
      (l.foldl (processField schema doc_id) s).max_doc = s.max_doc ∧
      (l.foldl (processField schema doc_id) s).store = s.store ∧
      (l.foldl (processField schema doc_id) s).block_store = s.block_store ∧
      (l.foldl (processField schema doc_id) s).per_field_postings_writers =
        s.per_field_postings_writers := by
  intro l
  induction l with
  | nil =>
    intro s
    simp
  | cons fv l ih =>
    intro s
    obtain ⟨p1, p2, p3, p4⟩ := processField_preserves schema doc_id s fv
    obtain ⟨q1, q2, q3, q4⟩ := ih (processField schema doc_id s fv)
    simp only [List.foldl_cons]
    exact ⟨q1.trans p1, q2.trans p2, q3.trans p3, q4.trans p4⟩

theorem processDoc_preserves (schema : Schema) (doc_id : DocId)
    (s : SegmentWriterS) (doc : Document) :
    (processDoc schema doc_id s doc).max_doc = s.max_doc ∧
    (processDoc schema doc_id s doc).store = s.store ∧
    (processDoc schema doc_id s doc).block_store = s.block_store ∧
    (processDoc schema doc_id s doc).per_field_postings_writers =
      s.per_field_postings_writers := by
  obtain ⟨p1, p2, p3, p4⟩ :=
    foldl_processField_preserves schema doc_id doc.get_sorted_fields s
  exact ⟨p1, p2, p3, p4⟩

theorem add_document_ok_fst (s : SegmentWriterS) (schema : Schema)
    (doc : Document) :
    (s.add_document schema true doc).1 = Except.ok s.max_doc := by
  simp [SegmentWriterS.add_document]

theorem add_document_ok_max (s : SegmentWriterS) (schema : Schema)
    (doc : Document) :
    (s.add_document schema true doc).2.max_doc = s.max_doc + 1 := by
  simp only [SegmentWriterS.add_document, if_pos]
  exact congrArg (· + 1) (processDoc_preserves schema s.max_doc s doc).1

/-- C2: For every sequence of successful add_document calls on a fresh
SegmentWriter, the n-th successful call (counting from 0) assigns doc
id n, and after all calls max_doc (and hence segment_info) equals the
total number of successful add_document calls; doc ids are consecutive,
start at 0 and follow call order exactly. -/
theorem add_document_assigns_consecutive_ids (schema : Schema)
    (block_store : BlockStore) (docs : List Document) :
    (addAll schema (SegmentWriterS.for_segment block_store schema) docs).1 =
      (List.range docs.length).map Except.ok ∧
    (addAll schema (SegmentWriterS.for_segment block_store schema) docs).2.max_doc =
      docs.length ∧
    (addAll schema (SegmentWriterS.for_segment block_store schema) docs).2.segment_info =
      docs.length := by
  have key : ∀ (ds : List Document) (s : SegmentWriterS),
      (addAll schema s ds).1 = (List.range' s.max_doc ds.length).map Except.ok ∧
      (addAll schema s ds).2.max_doc = s.max_doc + ds.length := by
    intro ds
    induction ds with
    | nil =>
      intro s
      simp [addAll]
    | cons d ds ih =>
      intro s
      obtain ⟨ih1, ih2⟩ := ih (s.add_document schema true d).2
      simp only [addAll]
      constructor
      · rw [ih1, add_document_ok_fst, add_document_ok_max, List.length_cons,
          List.range'_succ]
        simp
      · rw [ih2, add_document_ok_max, List.length_cons]
        ring
  obtain ⟨k1, k2⟩ := key docs (SegmentWriterS.for_segment block_store schema)
  have hm : (SegmentWriterS.for_segment block_store schema).max_doc = 0 := rfl
  refine ⟨?_, ?_, ?_⟩
  · rw [k1, hm, ← List.range_eq_range']
  · rw [k2, hm, Nat.zero_add]
  · show (addAll schema (SegmentWriterS.for_segment block_store schema) docs).2.max_doc =
      docs.length
    rw [k2, hm, Nat.zero_add]

/-- C9: If the store write inside add_document fails, add_document
returns the error and max_doc (and the store log) are left unchanged,
even though the per-field postings writers, fieldnorms writer and
fast-field writers have already been mutated for that doc id (the
state equals `processDoc` applied for doc id `max_doc`); the next
successful add_document reuses the same doc id. -/
theorem add_document_store_failure (schema : Schema) (s : SegmentWriterS)
    (doc doc2 : Document) :
    (s.add_document schema false doc).1 = Except.error () ∧
    (s.add_document schema false doc).2 = processDoc schema s.max_doc s doc ∧
    (s.add_document schema false doc).2.max_doc = s.max_doc ∧
    (s.add_document schema false doc).2.store = s.store ∧
    ((s.add_document schema false doc).2.add_document schema true doc2).1 =
      Except.ok s.max_doc := by
  have hp := processDoc_preserves schema s.max_doc s doc
  refine ⟨rfl, rfl, hp.1, hp.2.1, ?_⟩
  rw [add_document_ok_fst]
  exact congrArg Except.ok hp.1

/-- C7: For every schema field entry, the postings writer constructed
for it uses the recorder dictated by the field type: Str tokenized
with frequency and positions → TFAndPositionRecorder; Str tokenized
with frequency → TermFrequencyRecorder; any other Str option or a U32
field → NothingRecorder; and `for_segment` constructs the writer of
every schema entry through `posting_from_field_entry`. -/
theorem posting_from_field_entry_routing :
    (∀ (nm : String) (o : TextOptions),
      (o.get_indexing_options = .TokenizedWithFreqAndPosition →
        posting_from_field_entry ⟨nm, .Str o⟩ = .TFAndPositionRecorder) ∧
      (o.get_indexing_options = .TokenizedWithFreq →
        posting_from_field_entry ⟨nm, .Str o⟩ = .TermFrequencyRecorder) ∧
      (o.get_indexing_options ≠ .TokenizedWithFreq →
        o.get_indexing_options ≠ .TokenizedWithFreqAndPosition →
        posting_from_field_entry ⟨nm, .Str o⟩ = .NothingRecorder)) ∧
    (∀ (nm : String) (o : U32Options),
      posting_from_field_entry ⟨nm, .U32 o⟩ = .NothingRecorder) ∧
    (∀ (block_store : BlockStore) (schema : Schema),
      (SegmentWriterS.for_segment block_store schema).per_field_postings_writers =
        schema.map posting_from_field_entry) := by
  refine ⟨fun nm o => ⟨?_, ?_, ?_⟩, fun nm o => rfl, fun block_store schema => rfl⟩
  · intro h
    rcases o with ⟨i, st⟩
    cases i <;> simp_all [posting_from_field_entry, TextOptions.get_indexing_options]
  · intro h
    rcases o with ⟨i, st⟩
    cases i <;> simp_all [posting_from_field_entry, TextOptions.get_indexing_options]
  · intro h1 h2
    rcases o with ⟨i, st⟩
    cases i <;> simp_all [posting_from_field_entry, TextOptions.get_indexing_options]

/-- C8: For every SegmentWriter state, is_buffer_full() returns true
if and only if the shared BlockStore reports fewer than 100,000 free
blocks. -/
theorem is_buffer_full_iff (s : SegmentWriterS) :
    s.is_buffer_full = true ↔ s.block_store.num_free_blocks < 100000 := by
  simp [SegmentWriterS.is_buffer_full]

end Tantivy

